import Mathlib

/-!
# Verification of `parse_metrics.py` (DDB telemetry session metrics)

Shallow embedding of the two core algorithms of the repository:

* `build_debug_sessions` (the Session Builder): grouping a batch of telemetry
  events by user, scanning each user's chronologically sorted events, and
  delimiting debug-session intervals bounded by adapter-initialization markers
  and stop markers;
* `process_session` (the Session Interpreter): replaying one session's events,
  in timestamp order, through the event-driven state machine that accumulates
  counters and stepping/pause interval durations.

Events carry an integer nanosecond timestamp, a body string, and the relevant
entries of their `resources_string` mapping (`user.id`, `service.name`,
`session.id`, each defaulting to the empty string when absent, exactly as
`resources_string.get(key, "")` does).  Timestamps are unbounded integers
(`Int`), as in Python.
-/

/-- A telemetry event.  `userId`, `service` and `sessionId` stand for
`resources_string.get("user.id", "")`, `resources_string.get("service.name", "")`
and `resources_string.get("session.id", "")` respectively. -/
structure Event where
  timestamp : Int
  body : String
  service : String
  userId : String
  sessionId : String
  deriving DecidableEq, Repr

/-- The `DebugSession` dataclass.  Counters are naturals (they start at 0 and
are only ever incremented); timestamps and durations are integers.
`unique_sessions_viewed` is a Python `set`, modelled as a `Finset String`. -/
structure DebugSession where
  user_id : String
  da_session_id : String := ""
  ext_session_id : String := ""
  start_ts : Int := 0
  end_ts : Int := 0
  events : List Event := []
  step_count : Nat := 0
  breakpoint_ops : Nat := 0
  frame_switches : Nat := 0
  dbt_frame_switches : Nat := 0
  pause_count : Nat := 0
  continue_count : Nat := 0
  jump_count : Nat := 0
  signal_count : Nat := 0
  variable_examinations : Nat := 0
  unique_sessions_viewed : Finset String := ∅
  step_start_times : List Int := []
  step_durations : List Int := []
  pause_start_times : List Int := []
  pause_durations : List Int := []
  _in_stepping : Bool := false
  _last_step_ts : Int := 0
  _is_paused : Bool := false
  _last_pause_ts : Int := 0
  deriving DecidableEq

/-! ## `parse_activity` : the regex `\[activity\]\s+(\S+)\s*(.*)` and
`re.findall(r"(\w+)=(\S+)", params_str)` -/

/-- Python's `\s` character class (ASCII). -/
def pySpace (c : Char) : Bool :=
  c == ' ' || c == '\t' || c == '\n' || c == '\r' || c == '\x0b' || c == '\x0c'

/-- Python's `\w` character class (ASCII). -/
def pyWord (c : Char) : Bool :=
  c.isAlpha || c.isDigit || c == '_'

/-- `re.findall(r"(\w+)=(\S+)", s)`: scan left to right; at a word character,
the key is the maximal word run; it must be followed by `=` and a nonempty
maximal non-space run (the value); scanning resumes after the value on a
match, and one character further on a failure.  The `fuel` argument only
bounds the number of scan steps so the recursion is structural; every step
strictly shortens the list, so starting from `fuel = l.length` (as
`findallKV` does) the fuel is never exhausted. -/
def findallKVGo : Nat → List Char → List (String × String)
  | 0, _ => []
  | _, [] => []
  | fuel + 1, c :: rest =>
    if pyWord c then
      match rest.dropWhile pyWord with
      | '=' :: r2 =>
        let v := r2.takeWhile (fun ch => !pySpace ch)
        if v = [] then findallKVGo fuel rest
        else ((c :: rest.takeWhile pyWord).asString, v.asString) ::
          findallKVGo fuel (r2.dropWhile (fun ch => !pySpace ch))
      | _ => findallKVGo fuel rest
    else findallKVGo fuel rest

/-- `re.findall(r"(\w+)=(\S+)", s)`. -/
def findallKV (l : List Char) : List (String × String) := findallKVGo l.length l

/-- The literal `[activity]` tag. -/
def activityTag : List Char := "[activity]".data

/-- `parse_activity(body)`: match `\[activity\]\s+(\S+)\s*(.*)` anchored at the
start of `body` (`(.*)` stops at a newline); on failure return `("", {})`;
on success return the action token and the `key=value` pairs found in the
remainder. -/
def parseActivity (body : String) : String × List (String × String) :=
  let l := body.data
  if activityTag.isPrefixOf l then
    let r0 := l.drop activityTag.length
    let r1 := r0.dropWhile pySpace
    if r0.length = r1.length ∨ r1 = [] then ("", [])
    else
      let action := r1.takeWhile (fun c => !pySpace c)
      let r2 := r1.dropWhile (fun c => !pySpace c)
      let r3 := r2.dropWhile pySpace
      let paramsStr := r3.takeWhile (fun c => c != '\n')
      (action.asString, findallKV paramsStr)
  else ("", [])

/-- `params.get(k, d)` on the `dict` built by assigning the `findall` pairs in
order (a later binding of the same key overrides an earlier one). -/
def dictGet (params : List (String × String)) (k d : String) : String :=
  params.foldl (fun acc kv => if kv.1 == k then kv.2 else acc) d

/-! ## Sorting by timestamp

Both the Builder and the Interpreter sort event lists with Python's stable
`list.sort(key=lambda e: e["timestamp"])`.  Insertion sort with the relation
`a.timestamp ≤ b.timestamp` is stable, hence computes the same list. -/

/-- Comparison used for sorting events. -/
def tsle (a b : Event) : Prop := a.timestamp ≤ b.timestamp

instance : DecidableRel tsle := fun a b => Int.decLe a.timestamp b.timestamp

instance : IsTotal Event tsle := ⟨fun a b => Int.le_total a.timestamp b.timestamp⟩

instance : IsTrans Event tsle := ⟨fun _ _ _ h₁ h₂ => le_trans h₁ h₂⟩

/-- `events.sort(key=lambda e: e["timestamp"])` (stable). -/
def sortByTs (l : List Event) : List Event := l.insertionSort tsle

/-! ## Session Builder (`build_debug_sessions`)

The Python loop keeps a scan position `stop_idx` over the sorted stop-marker
list.  Its inner `while` loop advances `stop_idx` past every stop marker whose
timestamp is at or before the current init marker's timestamp; `advanceIdx`
computes the resulting position (`countStale` counts the markers skipped). -/

/-- Marker opening a session: `svc == "ddb-da" and
body.startswith("[OTel] Debugger Adapter initialized")`. -/
def isDaInit (e : Event) : Bool :=
  e.service == "ddb-da" && "[OTel] Debugger Adapter initialized".data.isPrefixOf e.body.data

/-- Stop marker: `svc == "ddb-ext" and body == "[activity] debug_session_stopped"`,
or `svc == "ddb" and body == "API server stopped"`. -/
def isStopMarker (e : Event) : Bool :=
  (e.service == "ddb-ext" && e.body == "[activity] debug_session_stopped") ||
  (e.service == "ddb" && e.body == "API server stopped")

/-- Number of leading stop markers with timestamp at or before `t`. -/
def countStale (t : Int) : List Event → Nat
  | [] => 0
  | e :: rest => if t < e.timestamp then 0 else countStale t rest + 1

/-- The `while` loop advancing `stop_idx`: the first position at or after `idx`
whose stop marker has timestamp strictly greater than `t` (or the end of the
list). -/
def advanceIdx (stops : List Event) (t : Int) (idx : Nat) : Nat :=
  idx + countStale t (stops.drop idx)

/-- `min` over timestamps where `none` stands for `float("inf")`. -/
def optMinTs : Option Int → Option Int → Option Int
  | none, b => b
  | some x, none => some x
  | some x, some y => some (min x y)

/-- `next_stop_ts <= next_init_ts and next_stop_ts != float("inf")`. -/
def consumeStop : Option Int → Option Int → Bool
  | none, _ => false
  | some _, none => true
  | some s, some i => s ≤ i

/-- `evs[-1]["timestamp"]` (the lists it is applied to are never empty). -/
def lastTs (evs : List Event) : Int :=
  match evs.getLast? with
  | some e => e.timestamp
  | none => 0

/-- One iteration of the `for i, init_ev in enumerate(da_inits)` loop: builds
the session opened by `init_ev` (given the next init marker's timestamp, or
`none` when `init_ev` is the last) and returns it together with the updated
scan position over `stops`. -/
def buildStep (uid : String) (evs stops : List Event) (init_ev : Event)
    (nextInitTs : Option Int) (stopIdx : Nat) : DebugSession × Nat :=
  let init_ts := init_ev.timestamp
  let idx1 := advanceIdx stops init_ts stopIdx
  let nextStopTs := (stops[idx1]?).map (·.timestamp)
  let endCand := optMinTs nextInitTs nextStopTs
  let idx2 := if consumeStop nextStopTs nextInitTs then idx1 + 1 else idx1
  let end_ts := endCand.getD (lastTs evs)
  ({ user_id := uid
     da_session_id := init_ev.sessionId
     start_ts := init_ts
     end_ts := end_ts
     events := evs.filter fun e =>
       decide (init_ts ≤ e.timestamp) && decide (e.timestamp ≤ end_ts) },
   idx2)

/-- The full `for` loop over a user's init markers, threading the stop-marker
scan position. -/
def buildLoop (uid : String) (evs stops : List Event) :
    List Event → Nat → List DebugSession
  | [], _ => []
  | init_ev :: rest, stopIdx =>
    let p := buildStep uid evs stops init_ev ((rest.head?).map (·.timestamp)) stopIdx
    p.1 :: buildLoop uid evs stops rest p.2

/-- A user's events, chronologically sorted: `user_events[uid]` after
`evs.sort(key=...)`. -/
def userEvs (events : List Event) (uid : String) : List Event :=
  sortByTs (events.filter fun e => e.userId == uid)

/-- `da_inits` for a user (collected from the sorted events, in order). -/
def initsOf (events : List Event) (uid : String) : List Event :=
  (userEvs events uid).filter isDaInit

/-- `stop_events` for a user, re-sorted by timestamp as in the source. -/
def stopsOf (events : List Event) (uid : String) : List Event :=
  sortByTs ((userEvs events uid).filter isStopMarker)

/-- All sessions of one user (the body of the `for uid, evs in
user_events.items()` loop). -/
def buildUser (events : List Event) (uid : String) : List DebugSession :=
  buildLoop uid (userEvs events uid) (stopsOf events uid) (initsOf events uid) 0

/-- The keys of the `defaultdict` `user_events`, in first-occurrence order;
events with an empty `user.id` are discarded. -/
def uidsOf (events : List Event) : List String :=
  events.foldl
    (fun acc e =>
      if e.userId == "" then acc
      else if e.userId ∈ acc then acc else acc ++ [e.userId]) []

/-- `build_debug_sessions(events)`. -/
def buildDebugSessions (events : List Event) : List DebugSession :=
  (uidsOf events).flatMap (buildUser events)

/-! ## Session Interpreter (`process_session`)

The body of the `for ev in session.events` loop is a chain of independent
`if` blocks, each reading the state left by the previous one; `stepEv`
composes them in source order. -/

/-- `action in ("step_over", "step_in", "step_out")`. -/
def isStepAction (action : String) : Bool :=
  action == "step_over" || action == "step_in" || action == "step_out"

/-- `if sess_num and sess_num != "undefined": session.unique_sessions_viewed.add(sess_num)`. -/
def trackSession (params : List (String × String)) (s : DebugSession) : DebugSession :=
  let sess_num := dictGet params "session" ""
  if sess_num ≠ "" ∧ sess_num ≠ "undefined" then
    { s with unique_sessions_viewed := insert sess_num s.unique_sessions_viewed }
  else s

/-- Step operations: increment the step counter and open a stepping interval
if none is open. -/
def handleStep (action : String) (ts : Int) (s : DebugSession) : DebugSession :=
  if isStepAction action then
    let s1 := { s with step_count := s.step_count + 1 }
    if s1._in_stepping = false then
      { s1 with _in_stepping := true, _last_step_ts := ts }
    else s1
  else s

/-- `stop` events (adapter-originated): close an open stepping interval when
the reason is a resume-completion reason, then open a pause interval if none
is open. -/
def handleStop (action svc : String) (params : List (String × String))
    (ts : Int) (s : DebugSession) : DebugSession :=
  if action = "stop" ∧ svc = "ddb-da" then
    let reason := dictGet params "reason" ""
    let s1 :=
      if (reason = "end-stepping-range" ∨ reason = "function-finished") ∧
          s._in_stepping = true then
        { s with step_durations := s.step_durations ++ [ts - s._last_step_ts]
                 _in_stepping := false }
      else s
    if s1._is_paused = false then
      { s1 with _is_paused := true, _last_pause_ts := ts }
    else s1
  else s

/-- `continue` events (adapter-originated): close an open pause interval, then
increment the continue counter. -/
def handleContinue (action svc : String) (ts : Int) (s : DebugSession) : DebugSession :=
  if action = "continue" ∧ svc = "ddb-da" then
    let s1 :=
      if s._is_paused = true then
        { s with pause_durations := s.pause_durations ++ [ts - s._last_pause_ts]
                 _is_paused := false }
      else s
    { s1 with continue_count := s1.continue_count + 1 }
  else s

/-- A step action while paused closes the pause interval. -/
def stepClosesPause (action : String) (ts : Int) (s : DebugSession) : DebugSession :=
  if isStepAction action = true ∧ s._is_paused = true then
    { s with pause_durations := s.pause_durations ++ [ts - s._last_pause_ts]
             _is_paused := false }
  else s

/-- `set_breakpoints` increments the breakpoint-operation counter. -/
def handleBreakpoints (action : String) (s : DebugSession) : DebugSession :=
  if action = "set_breakpoints" then
    { s with breakpoint_ops := s.breakpoint_ops + 1 }
  else s

/-- `select_frame` increments the frame-switch counter, and the boundary
counter when `after_boundary=true`. -/
def handleSelectFrame (action : String) (params : List (String × String))
    (s : DebugSession) : DebugSession :=
  if action = "select_frame" then
    let s1 := { s with frame_switches := s.frame_switches + 1 }
    if dictGet params "after_boundary" "false" = "true" then
      { s1 with dbt_frame_switches := s1.dbt_frame_switches + 1 }
    else s1
  else s

/-- `pause` increments the explicit pause counter. -/
def handlePauseCount (action : String) (s : DebugSession) : DebugSession :=
  if action = "pause" then { s with pause_count := s.pause_count + 1 } else s

/-- `reverse_continue` / `step_back` increment the jump counter. -/
def handleJump (action : String) (s : DebugSession) : DebugSession :=
  if action = "reverse_continue" ∨ action = "step_back" then
    { s with jump_count := s.jump_count + 1 }
  else s

/-- `expand_variable` and `evaluate` increment the variable-examination
counter (two separate `if` blocks in the source). -/
def handleVarExam (action : String) (s : DebugSession) : DebugSession :=
  let s1 :=
    if action = "expand_variable" then
      { s with variable_examinations := s.variable_examinations + 1 }
    else s
  if action = "evaluate" then
    { s1 with variable_examinations := s1.variable_examinations + 1 }
  else s1

/-- The body of the event loop of `process_session`, for one event. -/
def stepEv (s : DebugSession) (ev : Event) : DebugSession :=
  let ts := ev.timestamp
  let action := (parseActivity ev.body).1
  let params := (parseActivity ev.body).2
  if action = "" then s
  else
    let s1 := trackSession params s
    let s2 := handleStep action ts s1
    let s3 := handleStop action ev.service params ts s2
    let s4 := handleContinue action ev.service ts s3
    let s5 := stepClosesPause action ts s4
    let s6 := handleBreakpoints action s5
    let s7 := handleSelectFrame action params s6
    let s8 := handlePauseCount action s7
    let s9 := handleJump action s8
    handleVarExam action s9

/-- `process_session(session)`: sort the session's events in place, then run
the event loop. -/
def processSession (s : DebugSession) : DebugSession :=
  let sorted := sortByTs s.events
  sorted.foldl stepEv { s with events := sorted }

/-- A copy of a session keeping only its identity, time boundaries and event
list, with every counter, duration list, viewed-session set and open-interval
state field back at its initial default. -/
def resetCounters (s : DebugSession) : DebugSession :=
  { user_id := s.user_id
    da_session_id := s.da_session_id
    ext_session_id := s.ext_session_id
    start_ts := s.start_ts
    end_ts := s.end_ts
    events := s.events }

/-! ## Concrete event data used in the scenario theorems, counterexamples and
witnesses below -/

/-- "stop with a resume-completion reason" hypothesis used for the pause/step
interval invariant: every adapter-originated `stop` activity carries a
`reason` in the resume-completion set. -/
def reasonOk (e : Event) : Prop :=
  (parseActivity e.body).1 = "stop" → e.service = "ddb-da" →
    dictGet (parseActivity e.body).2 "reason" "" = "end-stepping-range" ∨
    dictGet (parseActivity e.body).2 "reason" "" = "function-finished"

instance (e : Event) : Decidable (reasonOk e) := by
  unfold reasonOk; infer_instance

/-- Scenario A, `init@0`. -/
def evInitA : Event := ⟨0, "[OTel] Debugger Adapter initialized", "ddb-da", "u", "42"⟩

/-- Scenario A, `step_over@10`. -/
def evStepA : Event := ⟨10, "[activity] step_over", "ddb-da", "u", "42"⟩

/-- Scenario A, `stop(reason=end-stepping-range)@50`. -/
def evStopA : Event := ⟨50, "[activity] stop reason=end-stepping-range", "ddb-da", "u", "42"⟩

/-- Scenario A, `continue@60`. -/
def evContA : Event := ⟨60, "[activity] continue", "ddb-da", "u", "42"⟩

/-- Scenario A input batch. -/
def scenarioAEvents : List Event := [evInitA, evStepA, evStopA, evContA]

/-- A stepping session followed by a `stop` whose reason is NOT in the
resume-completion set: after it, a stepping interval and a pause interval are
both open. -/
def cs2Cex : DebugSession :=
  { user_id := "u"
    events := [⟨10, "[activity] step_over", "ddb-da", "u", ""⟩,
               ⟨20, "[activity] stop reason=breakpoint", "ddb-da", "u", ""⟩] }

/-- Session whose adapter stops all carry resume-completion reasons. -/
def cs2W : DebugSession := { user_id := "u", events := [evStepA, evStopA] }

/-- A one-step session: interpreting it twice doubles the step counter. -/
def cs3Cex : DebugSession :=
  { user_id := "u", events := [⟨10, "[activity] step_over", "ddb-da", "u", ""⟩] }

/-- A `step_over` and a resume-completing `stop` at the SAME timestamp. -/
def e4step : Event := ⟨10, "[activity] step_over", "ddb-da", "u", ""⟩

/-- The tied `stop` event. -/
def e4stop : Event := ⟨10, "[activity] stop reason=end-stepping-range", "ddb-da", "u", ""⟩

/-- Tie-timestamp session, step before stop. -/
def cs4Base : DebugSession := { user_id := "u", events := [e4step, e4stop] }

/-- The same session with its (timestamp-tied) event list transposed. -/
def cs4Perm : DebugSession := { user_id := "u", events := [e4stop, e4step] }

/-- Session with distinct timestamps, sorted order. -/
def cs4W : DebugSession := { user_id := "u", events := [evStepA, evStopA] }

/-- Two init markers for the same user with no stop marker between them: the
event at the shared boundary timestamp is attached to both sessions. -/
def i0ev : Event := ⟨0, "[OTel] Debugger Adapter initialized", "ddb-da", "u", "s1"⟩

/-- The second init marker, at the first session's end boundary. -/
def i10ev : Event := ⟨10, "[OTel] Debugger Adapter initialized", "ddb-da", "u", "s2"⟩

/-- The two-init batch. -/
def evC1 : List Event := [i0ev, i10ev]

/-- First session built from `evC1`. -/
def c1sA : DebugSession :=
  { user_id := "u", da_session_id := "s1", start_ts := 0, end_ts := 10
    events := [i0ev, i10ev] }

/-- Second session built from `evC1`; it shares the event `i10ev` with `c1sA`. -/
def c1sB : DebugSession :=
  { user_id := "u", da_session_id := "s2", start_ts := 10, end_ts := 10
    events := [i10ev] }

/-- A stop marker used in the C5 witness, at timestamp 5. -/
def st5ev : Event := ⟨5, "[activity] debug_session_stopped", "ddb-ext", "u", ""⟩

/-- An init marker at timestamp 0 used in the C5 and C7 witnesses. -/
def in0ev : Event := ⟨0, "[OTel] Debugger Adapter initialized", "ddb-da", "u", "a"⟩

/-- An `evaluate` activity whose `session` parameter is the literal
`undefined`. -/
def evalUndef : Event := ⟨5, "[activity] evaluate session=undefined", "ddb-da", "u", ""⟩

/-- Bare session used by the C8 witness. -/
def cs8W : DebugSession := { user_id := "u" }

/-- The session built from the single-init batch `[in0ev]` (no stop markers):
an "open" session whose end is the user's last event timestamp. -/
def c7sW : DebugSession :=
  { user_id := "u", da_session_id := "a", start_ts := 0, end_ts := 0
    events := [in0ev] }

/-! ## Frame lemmas: fields the Interpreter never writes -/

/-- Fields of a session left untouched by every event-handler block. -/
def keepsFrame (s t : DebugSession) : Prop :=
  t.user_id = s.user_id ∧ t.da_session_id = s.da_session_id ∧
  t.ext_session_id = s.ext_session_id ∧ t.start_ts = s.start_ts ∧
  t.end_ts = s.end_ts ∧ t.events = s.events ∧ t.signal_count = s.signal_count

theorem keepsFrame_refl (s : DebugSession) : keepsFrame s s :=
  ⟨rfl, rfl, rfl, rfl, rfl, rfl, rfl⟩

theorem keepsFrame_trans {s t u : DebugSession}
    (h₁ : keepsFrame s t) (h₂ : keepsFrame t u) : keepsFrame s u := by
  obtain ⟨a₁, b₁, c₁, d₁, e₁, f₁, g₁⟩ := h₁
  obtain ⟨a₂, b₂, c₂, d₂, e₂, f₂, g₂⟩ := h₂
  exact ⟨a₂.trans a₁, b₂.trans b₁, c₂.trans c₁, d₂.trans d₁, e₂.trans e₁,
    f₂.trans f₁, g₂.trans g₁⟩

theorem trackSession_keepsFrame (p : List (String × String)) (s : DebugSession) :
    keepsFrame s (trackSession p s) := by
  unfold trackSession
  try dsimp only
  split <;> exact ⟨rfl, rfl, rfl, rfl, rfl, rfl, rfl⟩

theorem handleStep_keepsFrame (a : String) (ts : Int) (s : DebugSession) :
    keepsFrame s (handleStep a ts s) := by
  unfold handleStep
  try dsimp only
  repeat' split
  all_goals exact ⟨rfl, rfl, rfl, rfl, rfl, rfl, rfl⟩

theorem handleStop_keepsFrame (a svc : String) (p : List (String × String))
    (ts : Int) (s : DebugSession) : keepsFrame s (handleStop a svc p ts s) := by
  unfold handleStop
  try dsimp only
  repeat' split
  all_goals exact ⟨rfl, rfl, rfl, rfl, rfl, rfl, rfl⟩

theorem handleContinue_keepsFrame (a svc : String) (ts : Int) (s : DebugSession) :
    keepsFrame s (handleContinue a svc ts s) := by
  unfold handleContinue
  try dsimp only
  repeat' split
  all_goals exact ⟨rfl, rfl, rfl, rfl, rfl, rfl, rfl⟩

theorem stepClosesPause_keepsFrame (a : String) (ts : Int) (s : DebugSession) :
    keepsFrame s (stepClosesPause a ts s) := by
  unfold stepClosesPause
  try dsimp only
  split <;> exact ⟨rfl, rfl, rfl, rfl, rfl, rfl, rfl⟩

theorem handleBreakpoints_keepsFrame (a : String) (s : DebugSession) :
    keepsFrame s (handleBreakpoints a s) := by
  unfold handleBreakpoints
  try dsimp only
  split <;> exact ⟨rfl, rfl, rfl, rfl, rfl, rfl, rfl⟩

theorem handleSelectFrame_keepsFrame (a : String) (p : List (String × String))
    (s : DebugSession) : keepsFrame s (handleSelectFrame a p s) := by
  unfold handleSelectFrame
  try dsimp only
  repeat' split
  all_goals exact ⟨rfl, rfl, rfl, rfl, rfl, rfl, rfl⟩

theorem handlePauseCount_keepsFrame (a : String) (s : DebugSession) :
    keepsFrame s (handlePauseCount a s) := by
  unfold handlePauseCount
  try dsimp only
  split <;> exact ⟨rfl, rfl, rfl, rfl, rfl, rfl, rfl⟩

theorem handleJump_keepsFrame (a : String) (s : DebugSession) :
    keepsFrame s (handleJump a s) := by
  unfold handleJump
  try dsimp only
  split <;> exact ⟨rfl, rfl, rfl, rfl, rfl, rfl, rfl⟩

theorem handleVarExam_keepsFrame (a : String) (s : DebugSession) :
    keepsFrame s (handleVarExam a s) := by
  unfold handleVarExam
  try dsimp only
  repeat' split
  all_goals exact ⟨rfl, rfl, rfl, rfl, rfl, rfl, rfl⟩

theorem stepEv_keepsFrame (s : DebugSession) (ev : Event) :
    keepsFrame s (stepEv s ev) := by
  unfold stepEv
  dsimp only
  split
  · exact keepsFrame_refl s
  · exact keepsFrame_trans (trackSession_keepsFrame _ _)
      (keepsFrame_trans (handleStep_keepsFrame _ _ _)
        (keepsFrame_trans (handleStop_keepsFrame _ _ _ _ _)
          (keepsFrame_trans (handleContinue_keepsFrame _ _ _ _)
            (keepsFrame_trans (stepClosesPause_keepsFrame _ _ _)
              (keepsFrame_trans (handleBreakpoints_keepsFrame _ _)
                (keepsFrame_trans (handleSelectFrame_keepsFrame _ _ _)
                  (keepsFrame_trans (handlePauseCount_keepsFrame _ _)
                    (keepsFrame_trans (handleJump_keepsFrame _ _)
                      (handleVarExam_keepsFrame _ _)))))))))

theorem foldl_stepEv_keepsFrame (l : List Event) (s : DebugSession) :
    keepsFrame s (l.foldl stepEv s) := by
  induction l generalizing s with
  | nil => exact keepsFrame_refl s
  | cons e rest ih =>
    exact keepsFrame_trans (stepEv_keepsFrame s e) (ih (stepEv s e))

theorem processSession_keepsFrame (s : DebugSession) :
    (processSession s).user_id = s.user_id ∧
    (processSession s).da_session_id = s.da_session_id ∧
    (processSession s).ext_session_id = s.ext_session_id ∧
    (processSession s).start_ts = s.start_ts ∧
    (processSession s).end_ts = s.end_ts ∧
    (processSession s).events = sortByTs s.events ∧
    (processSession s).signal_count = s.signal_count := by
  have h := foldl_stepEv_keepsFrame (sortByTs s.events) { s with events := sortByTs s.events }
  obtain ⟨a, b, c, d, e, f, g⟩ := h
  exact ⟨a, b, c, d, e, f, g⟩

/-- Sorting an already-sorted event list is the identity, so re-sorting is
idempotent. -/
theorem sortByTs_idem (l : List Event) : sortByTs (sortByTs l) = sortByTs l :=
  List.Sorted.insertionSort_eq (List.sorted_insertionSort tsle l)

/-- C6: for the single-user event sequence `[init@0, step_over@10,
stop(reason=end-stepping-range)@50, continue@60]`, the pipeline builds exactly
one session and the Interpreter produces `step_count = 1`, exactly one
stepping duration equal to `40 = 50 - 10`, and exactly one pause duration
equal to `10 = 60 - 50`. -/
theorem scenarioA_metrics :
    ((buildDebugSessions scenarioAEvents).map processSession).map
        (fun s => (s.step_count, s.step_durations, s.pause_durations)) =
      [(1, [40], [10])] := by decide

/-- C10: the Interpreter leaves `user_id`, `da_session_id`, `ext_session_id`,
`start_ts` and `end_ts` unchanged and permutes (re-sorts) the attached event
list without adding or removing events. -/
theorem processSession_frame (s : DebugSession) :
    (processSession s).user_id = s.user_id ∧
    (processSession s).da_session_id = s.da_session_id ∧
    (processSession s).ext_session_id = s.ext_session_id ∧
    (processSession s).start_ts = s.start_ts ∧
    (processSession s).end_ts = s.end_ts ∧
    (processSession s).events.Perm s.events := by
  obtain ⟨a, b, c, d, e, f, _⟩ := processSession_keepsFrame s
  refine ⟨a, b, c, d, e, ?_⟩
  rw [f]
  exact List.perm_insertionSort tsle s.events

/-- C3 counterexample: re-running the Interpreter on the already-populated
one-step session doubles `step_count` (2 after the second run, 1 after the
first), so the pass is not idempotent. -/
theorem interpreter_not_idempotent_cex :
    (processSession (processSession cs3Cex)).step_count = 2 ∧
    (processSession cs3Cex).step_count = 1 ∧
    (processSession (processSession cs3Cex)).step_count ≠
      (processSession cs3Cex).step_count := by decide

/-- C3 (amended): the Interpreter has no hidden external state — re-running it
after resetting the counters, duration lists, viewed-session set and
open-interval state to their initial defaults (keeping identity, boundaries
and event list) reproduces exactly the result of a single run from that reset
state. -/
theorem interpreter_rerun_after_reset (s : DebugSession) :
    processSession (resetCounters (processSession s)) =
      processSession (resetCounters s) := by
  obtain ⟨a, b, c, d, e, f, _⟩ := processSession_keepsFrame s
  have h1 : resetCounters (processSession s) =
      { user_id := s.user_id, da_session_id := s.da_session_id
        ext_session_id := s.ext_session_id, start_ts := s.start_ts
        end_ts := s.end_ts, events := sortByTs s.events } := by
    unfold resetCounters
    rw [a, b, c, d, e, f]
  rw [h1]
  unfold processSession
  rw [sortByTs_idem]
  rfl

/-! ## No-op and small-effect lemmas for the handler blocks -/

theorem handleStep_noop (a : String) (ts : Int) (s : DebugSession)
    (h : isStepAction a = false) : handleStep a ts s = s := by
  unfold handleStep
  rw [h]
  rfl

theorem handleStop_noop (a svc : String) (p : List (String × String)) (ts : Int)
    (s : DebugSession) (h : ¬(a = "stop" ∧ svc = "ddb-da")) :
    handleStop a svc p ts s = s := by
  unfold handleStop
  rw [if_neg h]

theorem handleContinue_noop (a svc : String) (ts : Int) (s : DebugSession)
    (h : ¬(a = "continue" ∧ svc = "ddb-da")) : handleContinue a svc ts s = s := by
  unfold handleContinue
  rw [if_neg h]

theorem stepClosesPause_noop (a : String) (ts : Int) (s : DebugSession)
    (h : isStepAction a = false) : stepClosesPause a ts s = s := by
  unfold stepClosesPause
  rw [if_neg]
  intro hc
  rw [h] at hc
  exact absurd hc.1 (by decide)

theorem handleBreakpoints_noop (a : String) (s : DebugSession)
    (h : a ≠ "set_breakpoints") : handleBreakpoints a s = s := by
  unfold handleBreakpoints
  rw [if_neg h]

theorem handleSelectFrame_noop (a : String) (p : List (String × String))
    (s : DebugSession) (h : a ≠ "select_frame") : handleSelectFrame a p s = s := by
  unfold handleSelectFrame
  rw [if_neg h]

theorem handlePauseCount_noop (a : String) (s : DebugSession) (h : a ≠ "pause") :
    handlePauseCount a s = s := by
  unfold handlePauseCount
  rw [if_neg h]

theorem handleJump_noop (a : String) (s : DebugSession)
    (h : ¬(a = "reverse_continue" ∨ a = "step_back")) : handleJump a s = s := by
  unfold handleJump
  rw [if_neg h]

theorem handleVarExam_evaluate (s : DebugSession) :
    handleVarExam "evaluate" s =
      { s with variable_examinations := s.variable_examinations + 1 } := by
  unfold handleVarExam
  rw [if_pos rfl, if_neg (show ¬("evaluate" = "expand_variable") by decide)]

theorem trackSession_of_undefined (p : List (String × String)) (s : DebugSession)
    (h : dictGet p "session" "" = "undefined") : trackSession p s = s := by
  unfold trackSession
  rw [if_neg]
  rw [h]
  intro hc
  exact hc.2 rfl

/-! ## Effect of each handler on the open-interval state machine and on the
viewed-session set -/

theorem trackSession_machine (p : List (String × String)) (s : DebugSession) :
    (trackSession p s)._in_stepping = s._in_stepping ∧
    (trackSession p s)._is_paused = s._is_paused := by
  unfold trackSession
  try dsimp only
  split <;> exact ⟨rfl, rfl⟩

theorem handleBreakpoints_machine (a : String) (s : DebugSession) :
    (handleBreakpoints a s)._in_stepping = s._in_stepping ∧
    (handleBreakpoints a s)._is_paused = s._is_paused := by
  unfold handleBreakpoints
  split <;> exact ⟨rfl, rfl⟩

theorem handleSelectFrame_machine (a : String) (p : List (String × String))
    (s : DebugSession) :
    (handleSelectFrame a p s)._in_stepping = s._in_stepping ∧
    (handleSelectFrame a p s)._is_paused = s._is_paused := by
  unfold handleSelectFrame
  try dsimp only
  repeat' split
  all_goals exact ⟨rfl, rfl⟩

theorem handlePauseCount_machine (a : String) (s : DebugSession) :
    (handlePauseCount a s)._in_stepping = s._in_stepping ∧
    (handlePauseCount a s)._is_paused = s._is_paused := by
  unfold handlePauseCount
  split <;> exact ⟨rfl, rfl⟩

theorem handleJump_machine (a : String) (s : DebugSession) :
    (handleJump a s)._in_stepping = s._in_stepping ∧
    (handleJump a s)._is_paused = s._is_paused := by
  unfold handleJump
  split <;> exact ⟨rfl, rfl⟩

theorem handleVarExam_machine (a : String) (s : DebugSession) :
    (handleVarExam a s)._in_stepping = s._in_stepping ∧
    (handleVarExam a s)._is_paused = s._is_paused := by
  unfold handleVarExam
  try dsimp only
  repeat' split
  all_goals exact ⟨rfl, rfl⟩

theorem handleStep_paused (a : String) (ts : Int) (s : DebugSession) :
    (handleStep a ts s)._is_paused = s._is_paused := by
  unfold handleStep
  try dsimp only
  repeat' split
  all_goals rfl

theorem handleContinue_stepping (a svc : String) (ts : Int) (s : DebugSession) :
    (handleContinue a svc ts s)._in_stepping = s._in_stepping := by
  unfold handleContinue
  try dsimp only
  repeat' split
  all_goals rfl

theorem handleContinue_paused_imp (a svc : String) (ts : Int) (s : DebugSession)
    (h : (handleContinue a svc ts s)._is_paused = true) : s._is_paused = true := by
  unfold handleContinue at h
  dsimp only at h
  split at h
  · split at h
    · exact absurd h (by simp)
    · exact h
  · exact h

theorem stepClosesPause_stepping (a : String) (ts : Int) (s : DebugSession) :
    (stepClosesPause a ts s)._in_stepping = s._in_stepping := by
  unfold stepClosesPause
  split <;> rfl

theorem stepClosesPause_paused_false (a : String) (ts : Int) (s : DebugSession)
    (h : isStepAction a = true) : (stepClosesPause a ts s)._is_paused = false := by
  unfold stepClosesPause
  by_cases hp : s._is_paused = true
  · rw [if_pos (show isStepAction a = true ∧ s._is_paused = true from ⟨h, hp⟩)]
  · rw [if_neg (show ¬(isStepAction a = true ∧ s._is_paused = true) from
      fun hc => hp hc.2)]
    cases hb : s._is_paused
    · rfl
    · exact absurd hb hp

theorem handleStop_stepping_false (p : List (String × String)) (ts : Int)
    (s : DebugSession)
    (hr : dictGet p "reason" "" = "end-stepping-range" ∨
      dictGet p "reason" "" = "function-finished") :
    (handleStop "stop" "ddb-da" p ts s)._in_stepping = false := by
  unfold handleStop
  rw [if_pos (show "stop" = "stop" ∧ "ddb-da" = "ddb-da" from ⟨rfl, rfl⟩)]
  dsimp only
  by_cases hc : (dictGet p "reason" "" = "end-stepping-range" ∨
      dictGet p "reason" "" = "function-finished") ∧ s._in_stepping = true
  · rw [if_pos hc]
    split <;> rfl
  · rw [if_neg hc]
    have hs : s._in_stepping = false := by
      cases hb : s._in_stepping
      · rfl
      · exact absurd ⟨hr, hb⟩ hc
    split
    · exact hs
    · exact hs

theorem handleStep_viewed (a : String) (ts : Int) (s : DebugSession) :
    (handleStep a ts s).unique_sessions_viewed = s.unique_sessions_viewed := by
  unfold handleStep
  try dsimp only
  repeat' split
  all_goals rfl

theorem handleStop_viewed (a svc : String) (p : List (String × String)) (ts : Int)
    (s : DebugSession) :
    (handleStop a svc p ts s).unique_sessions_viewed = s.unique_sessions_viewed := by
  unfold handleStop
  try dsimp only
  repeat' split
  all_goals rfl

theorem handleContinue_viewed (a svc : String) (ts : Int) (s : DebugSession) :
    (handleContinue a svc ts s).unique_sessions_viewed = s.unique_sessions_viewed := by
  unfold handleContinue
  try dsimp only
  repeat' split
  all_goals rfl

theorem stepClosesPause_viewed (a : String) (ts : Int) (s : DebugSession) :
    (stepClosesPause a ts s).unique_sessions_viewed = s.unique_sessions_viewed := by
  unfold stepClosesPause
  split <;> rfl

theorem handleBreakpoints_viewed (a : String) (s : DebugSession) :
    (handleBreakpoints a s).unique_sessions_viewed = s.unique_sessions_viewed := by
  unfold handleBreakpoints
  split <;> rfl

theorem handleSelectFrame_viewed (a : String) (p : List (String × String))
    (s : DebugSession) :
    (handleSelectFrame a p s).unique_sessions_viewed = s.unique_sessions_viewed := by
  unfold handleSelectFrame
  try dsimp only
  repeat' split
  all_goals rfl

theorem handlePauseCount_viewed (a : String) (s : DebugSession) :
    (handlePauseCount a s).unique_sessions_viewed = s.unique_sessions_viewed := by
  unfold handlePauseCount
  split <;> rfl

theorem handleJump_viewed (a : String) (s : DebugSession) :
    (handleJump a s).unique_sessions_viewed = s.unique_sessions_viewed := by
  unfold handleJump
  split <;> rfl

theorem handleVarExam_viewed (a : String) (s : DebugSession) :
    (handleVarExam a s).unique_sessions_viewed = s.unique_sessions_viewed := by
  unfold handleVarExam
  try dsimp only
  repeat' split
  all_goals rfl

theorem trackSession_viewed_mem (p : List (String × String)) (s : DebugSession)
    (h : "undefined" ∈ (trackSession p s).unique_sessions_viewed) :
    "undefined" ∈ s.unique_sessions_viewed := by
  unfold trackSession at h
  dsimp only at h
  split at h
  · rename_i hc
    rcases Finset.mem_insert.mp h with heq | hmem
    · exact absurd heq.symm hc.2
    · exact hmem
  · exact h

/-- C8: an `evaluate` activity whose `session` parameter is the literal
`undefined` increments `variable_examinations` by one and leaves
`unique_sessions_viewed` unchanged; moreover no event ever inserts the value
`undefined` into `unique_sessions_viewed`. -/
theorem evaluate_undefined_session :
    (∀ (s : DebugSession) (ev : Event),
      (parseActivity ev.body).1 = "evaluate" →
      dictGet (parseActivity ev.body).2 "session" "" = "undefined" →
      (stepEv s ev).variable_examinations = s.variable_examinations + 1 ∧
      (stepEv s ev).unique_sessions_viewed = s.unique_sessions_viewed) ∧
    (∀ (s : DebugSession) (ev : Event),
      "undefined" ∈ (stepEv s ev).unique_sessions_viewed →
      "undefined" ∈ s.unique_sessions_viewed) := by
  constructor
  · intro s ev h1 h2
    unfold stepEv
    dsimp only
    have hne : (parseActivity ev.body).1 ≠ "" := by
      rw [h1]; decide
    rw [if_neg hne, h1]
    rw [trackSession_of_undefined _ _ h2]
    rw [handleStep_noop _ _ _ (by decide)]
    rw [handleStop_noop _ _ _ _ _ (fun hc => absurd hc.1 (by decide))]
    rw [handleContinue_noop _ _ _ _ (fun hc => absurd hc.1 (by decide))]
    rw [stepClosesPause_noop _ _ _ (by decide)]
    rw [handleBreakpoints_noop _ _ (by decide)]
    rw [handleSelectFrame_noop _ _ _ (by decide)]
    rw [handlePauseCount_noop _ _ (by decide)]
    rw [handleJump_noop _ _ (by decide)]
    rw [handleVarExam_evaluate]
    exact ⟨rfl, rfl⟩
  · intro s ev h
    unfold stepEv at h
    dsimp only at h
    split at h
    · exact h
    · rw [handleVarExam_viewed, handleJump_viewed, handlePauseCount_viewed,
        handleSelectFrame_viewed, handleBreakpoints_viewed, stepClosesPause_viewed,
        handleContinue_viewed, handleStop_viewed, handleStep_viewed] at h
      exact trackSession_viewed_mem _ _ h

/-- Witness for C8, at a concrete `evaluate session=undefined` event. -/
theorem evaluate_undefined_session_witness :
    (stepEv cs8W evalUndef).variable_examinations = cs8W.variable_examinations + 1 ∧
    (stepEv cs8W evalUndef).unique_sessions_viewed = cs8W.unique_sessions_viewed :=
  evaluate_undefined_session.1 cs8W evalUndef (by decide) (by decide)

/-! ## The stepping/pause exclusion invariant -/

/-- After a step action, the pause interval is always closed. -/
theorem stepEv_paused_false_of_stepAction (s : DebugSession) (ev : Event)
    (hA : isStepAction (parseActivity ev.body).1 = true) :
    (stepEv s ev)._is_paused = false := by
  unfold stepEv
  dsimp only
  have hne : (parseActivity ev.body).1 ≠ "" := by
    intro h
    rw [h] at hA
    exact absurd hA (by decide)
  rw [if_neg hne]
  rw [(handleVarExam_machine _ _).2, (handleJump_machine _ _).2,
    (handlePauseCount_machine _ _).2, (handleSelectFrame_machine _ _ _).2,
    (handleBreakpoints_machine _ _).2]
  exact stepClosesPause_paused_false _ _ _ hA

/-- After an adapter `stop` whose reason is in the resume-completion set, the
stepping interval is always closed. -/
theorem stepEv_stepping_false_of_stop (s : DebugSession) (ev : Event)
    (ha : (parseActivity ev.body).1 = "stop") (hsvc : ev.service = "ddb-da")
    (hr : dictGet (parseActivity ev.body).2 "reason" "" = "end-stepping-range" ∨
      dictGet (parseActivity ev.body).2 "reason" "" = "function-finished") :
    (stepEv s ev)._in_stepping = false := by
  unfold stepEv
  dsimp only
  have hne : (parseActivity ev.body).1 ≠ "" := by
    rw [ha]; decide
  rw [if_neg hne]
  rw [(handleVarExam_machine _ _).1, (handleJump_machine _ _).1,
    (handlePauseCount_machine _ _).1, (handleSelectFrame_machine _ _ _).1,
    (handleBreakpoints_machine _ _).1, stepClosesPause_stepping,
    handleContinue_stepping, ha, hsvc]
  rw [handleStep_noop _ _ _ (by decide)]
  exact handleStop_stepping_false _ _ _ hr

/-- For any action that is neither a step action nor an adapter `stop`, the
handler chain leaves `_in_stepping` unchanged and can only close (never open)
the pause interval. -/
theorem stepEv_other_actions (s : DebugSession) (ev : Event)
    (hA : isStepAction (parseActivity ev.body).1 = false)
    (hB : ¬((parseActivity ev.body).1 = "stop" ∧ ev.service = "ddb-da")) :
    (stepEv s ev)._in_stepping = s._in_stepping ∧
    ((stepEv s ev)._is_paused = true → s._is_paused = true) := by
  unfold stepEv
  dsimp only
  by_cases h0 : (parseActivity ev.body).1 = ""
  · rw [if_pos h0]
    exact ⟨rfl, fun h => h⟩
  · rw [if_neg h0]
    constructor
    · rw [(handleVarExam_machine _ _).1, (handleJump_machine _ _).1,
        (handlePauseCount_machine _ _).1, (handleSelectFrame_machine _ _ _).1,
        (handleBreakpoints_machine _ _).1, stepClosesPause_stepping,
        handleContinue_stepping, handleStop_noop _ _ _ _ _ hB,
        handleStep_noop _ _ _ hA, (trackSession_machine _ _).1]
    · intro hp
      rw [(handleVarExam_machine _ _).2, (handleJump_machine _ _).2,
        (handlePauseCount_machine _ _).2, (handleSelectFrame_machine _ _ _).2,
        (handleBreakpoints_machine _ _).2, stepClosesPause_noop _ _ _ hA,
        handleStop_noop _ _ _ _ _ hB, handleStep_noop _ _ _ hA] at hp
      have hp2 := handleContinue_paused_imp _ _ _ _ hp
      rw [(trackSession_machine _ _).2] at hp2
      exact hp2

/-- One interpreter step preserves the exclusion of open stepping and pause
intervals, provided the event's `stop` reason (if it is an adapter stop) is a
resume-completion reason. -/
theorem stepEv_exclusion (s : DebugSession) (ev : Event) (hok : reasonOk ev)
    (h : ¬(s._in_stepping = true ∧ s._is_paused = true)) :
    ¬((stepEv s ev)._in_stepping = true ∧ (stepEv s ev)._is_paused = true) := by
  by_cases hA : isStepAction (parseActivity ev.body).1 = true
  · intro hc
    rw [stepEv_paused_false_of_stepAction s ev hA] at hc
    exact absurd hc.2 (by decide)
  · by_cases hB : (parseActivity ev.body).1 = "stop" ∧ ev.service = "ddb-da"
    · intro hc
      rw [stepEv_stepping_false_of_stop s ev hB.1 hB.2 (hok hB.1 hB.2)] at hc
      exact absurd hc.1 (by decide)
    · intro hc
      have ho := stepEv_other_actions s ev (by
        cases hb : isStepAction (parseActivity ev.body).1
        · rfl
        · exact absurd hb hA) hB
      exact h ⟨ho.1 ▸ hc.1, ho.2 hc.2⟩

/-- The exclusion invariant holds after folding the handler over any event
list whose adapter stops all carry resume-completion reasons. -/
theorem foldl_stepEv_exclusion (l : List Event) (s : DebugSession)
    (hok : ∀ e ∈ l, reasonOk e)
    (h : ¬(s._in_stepping = true ∧ s._is_paused = true)) :
    ¬((l.foldl stepEv s)._in_stepping = true ∧
      (l.foldl stepEv s)._is_paused = true) := by
  induction l generalizing s with
  | nil => exact h
  | cons e rest ih =>
    exact ih (stepEv s e)
      (fun x hx => hok x (List.mem_cons_of_mem e hx))
      (stepEv_exclusion s e (hok e (List.mem_cons_self e rest)) h)

/-- C2 counterexample: after `step_over@10` followed by an adapter
`stop(reason=breakpoint)@20`, the Interpreter leaves a stepping interval AND a
pause interval simultaneously open. -/
theorem stepping_pause_both_open_cex :
    (processSession cs2Cex)._in_stepping = true ∧
    (processSession cs2Cex)._is_paused = true := by decide

/-- C2 (amended): throughout the Interpreter's single pass — after any prefix
of the sorted event list — a stepping interval and a pause interval are never
both open, provided the session enters the pass with both intervals closed
and every adapter-originated `stop` activity among its events carries a
resume-completion reason (`end-stepping-range` or `function-finished`). -/
theorem stepping_pause_exclusion (s : DebugSession) (pfx rest : List Event)
    (h0 : s._in_stepping = false) (_h1 : s._is_paused = false)
    (hok : ∀ e ∈ s.events, reasonOk e)
    (hsplit : sortByTs s.events = pfx ++ rest) :
    ¬((pfx.foldl stepEv { s with events := sortByTs s.events })._in_stepping = true ∧
      (pfx.foldl stepEv { s with events := sortByTs s.events })._is_paused = true) := by
  apply foldl_stepEv_exclusion
  · intro e he
    apply hok
    have hmem : e ∈ sortByTs s.events := by
      rw [hsplit]
      exact List.mem_append_left rest he
    exact (List.perm_insertionSort tsle s.events).mem_iff.mp hmem
  · intro hc
    have hst : s._in_stepping = true := hc.1
    rw [h0] at hst
    exact absurd hst (by decide)

/-- Witness for C2 (amended), on the prefix `[step_over@10]` of a session
whose stops all resume-complete. -/
theorem stepping_pause_exclusion_witness :
    ¬((([evStepA]).foldl stepEv { cs2W with events := sortByTs cs2W.events })._in_stepping = true ∧
      (([evStepA]).foldl stepEv { cs2W with events := sortByTs cs2W.events })._is_paused = true) :=
  stepping_pause_exclusion cs2W [evStepA] [evStopA] (by decide) (by decide)
    (by decide) (by decide)

/-! ## Order-insensitivity for distinct timestamps -/

/-- Two sorted event lists that are permutations of each other and have
pairwise-distinct timestamps are equal. -/
theorem sorted_nodupKeys_unique : ∀ {l₁ l₂ : List Event}, l₁.Perm l₂ →
    l₁.Sorted tsle → l₂.Sorted tsle → (l₁.map Event.timestamp).Nodup → l₁ = l₂ := by
  intro l₁
  induction l₁ with
  | nil =>
    intro l₂ hp _ _ _
    exact (List.Perm.eq_nil hp.symm).symm
  | cons a t₁ ih =>
    intro l₂ hp hs₁ hs₂ hnd
    cases l₂ with
    | nil => exact absurd (List.Perm.eq_nil hp) (by simp)
    | cons b t₂ =>
      have hab : a = b := by
        have ha2 : a ∈ b :: t₂ := hp.subset (List.mem_cons_self a t₁)
        have hb1 : b ∈ a :: t₁ := hp.symm.subset (List.mem_cons_self b t₂)
        rcases List.mem_cons.mp ha2 with h | ha2t
        · exact h
        rcases List.mem_cons.mp hb1 with h | hb1t
        · exact h.symm
        have h1 : tsle a b := List.rel_of_sorted_cons hs₁ b hb1t
        have h2 : tsle b a := List.rel_of_sorted_cons hs₂ a ha2t
        have heq : a.timestamp = b.timestamp :=
          le_antisymm (show a.timestamp ≤ b.timestamp from h1)
            (show b.timestamp ≤ a.timestamp from h2)
        rw [List.map_cons] at hnd
        have hmem : a.timestamp ∈ t₁.map Event.timestamp := by
          rw [heq]
          exact List.mem_map_of_mem Event.timestamp hb1t
        exact absurd hmem (List.nodup_cons.mp hnd).1
      subst hab
      have hpt : t₁.Perm t₂ := hp.cons_inv
      rw [List.map_cons] at hnd
      rw [ih hpt hs₁.of_cons hs₂.of_cons (List.nodup_cons.mp hnd).2]

/-- Stable sorting of two permuted lists with pairwise-distinct timestamps
gives the same result. -/
theorem sortByTs_eq_of_perm {l₁ l₂ : List Event} (hp : l₁.Perm l₂)
    (hnd : (l₂.map Event.timestamp).Nodup) : sortByTs l₁ = sortByTs l₂ := by
  apply sorted_nodupKeys_unique
  · exact (List.perm_insertionSort tsle l₁).trans
      (hp.trans (List.perm_insertionSort tsle l₂).symm)
  · exact List.sorted_insertionSort tsle l₁
  · exact List.sorted_insertionSort tsle l₂
  · exact (((List.perm_insertionSort tsle l₁).map Event.timestamp).trans
      (hp.map Event.timestamp)).nodup_iff.mpr hnd

/-- C4 (amended): when the session's event timestamps are pairwise distinct,
interpreting any permutation of its event list yields exactly the same result
as interpreting the original (hence also the timestamp-sorted) list, since the
Interpreter re-sorts. -/
theorem interpreter_order_insensitive (s : DebugSession) (l : List Event)
    (hperm : l.Perm s.events)
    (hnd : (s.events.map Event.timestamp).Nodup) :
    processSession { s with events := l } = processSession s := by
  unfold processSession
  dsimp only
  rw [sortByTs_eq_of_perm hperm hnd]

/-- C4 counterexample: with a `step_over` and a resume-completing `stop` at
the SAME timestamp, transposing the (already sorted) event list changes the
Interpreter's output — the stepping duration recorded for the sorted order
disappears. -/
theorem interpreter_order_sensitive_cex :
    cs4Perm.events.Perm cs4Base.events ∧
    sortByTs cs4Base.events = cs4Base.events ∧
    (processSession cs4Perm).step_durations ≠
      (processSession cs4Base).step_durations :=
  ⟨List.Perm.swap e4step e4stop [], by decide, by decide⟩

/-- Witness for C4 (amended), transposing a two-event list with distinct
timestamps. -/
theorem interpreter_order_insensitive_witness :
    processSession { cs4W with events := [evStopA, evStepA] } = processSession cs4W :=
  interpreter_order_insensitive cs4W [evStopA, evStepA]
    (List.Perm.swap evStepA evStopA []) (by decide)

/-! ## Builder lemmas: the stop-marker scan and one build step -/

theorem countStale_getElem?_gt : ∀ (l : List Event) (t : Int) {e : Event},
    l[countStale t l]? = some e → t < e.timestamp := by
  intro l t
  induction l with
  | nil => intro e h; simp at h
  | cons a r ih =>
    intro e h
    unfold countStale at h
    by_cases ht : t < a.timestamp
    · rw [if_pos ht] at h
      rw [List.getElem?_cons_zero] at h
      rw [← Option.some.inj h]
      exact ht
    · rw [if_neg ht] at h
      rw [List.getElem?_cons_succ] at h
      exact ih h

theorem countStale_getElem?_none : ∀ (l : List Event) (t : Int),
    (∀ e ∈ l, e.timestamp ≤ t) → l[countStale t l]? = none := by
  intro l t
  induction l with
  | nil => intro _; rfl
  | cons a r ih =>
    intro h
    unfold countStale
    rw [if_neg (by
      have := h a (List.mem_cons_self a r)
      omega)]
    rw [List.getElem?_cons_succ]
    exact ih (fun e he => h e (List.mem_cons_of_mem a he))

theorem advanceIdx_getElem?_gt (stops : List Event) (t : Int) (idx : Nat)
    {e : Event} (h : stops[advanceIdx stops t idx]? = some e) : t < e.timestamp := by
  unfold advanceIdx at h
  rw [← List.getElem?_drop] at h
  exact countStale_getElem?_gt _ t h

theorem advanceIdx_getElem?_none (stops : List Event) (t : Int) (idx : Nat)
    (h : ∀ e ∈ stops, e.timestamp ≤ t) : stops[advanceIdx stops t idx]? = none := by
  unfold advanceIdx
  rw [← List.getElem?_drop]
  exact countStale_getElem?_none _ t (fun e he => h e (List.drop_subset idx stops he))

theorem advanceIdx_le (stops : List Event) (t : Int) (idx : Nat) :
    idx ≤ advanceIdx stops t idx :=
  Nat.le_add_right idx _

theorem buildStep_events_mem {uid : String} {evs stops : List Event} {ie : Event}
    {ni : Option Int} {idx : Nat} {e : Event}
    (h : e ∈ (buildStep uid evs stops ie ni idx).1.events) :
    e ∈ evs ∧ ie.timestamp ≤ e.timestamp ∧
      e.timestamp ≤ (buildStep uid evs stops ie ni idx).1.end_ts := by
  obtain ⟨hm, hp⟩ := List.mem_filter.mp h
  simp only [Bool.and_eq_true, decide_eq_true_eq] at hp
  exact ⟨hm, hp.1, hp.2⟩

theorem buildStep_end_le {uid : String} {evs stops : List Event} {ie : Event}
    {idx : Nat} {t : Int} :
    (buildStep uid evs stops ie (some t) idx).1.end_ts ≤ t := by
  unfold buildStep
  dsimp only
  cases hn : stops[advanceIdx stops ie.timestamp idx]? with
  | none => simp [optMinTs]
  | some e =>
    show (optMinTs (some t) (some e.timestamp)).getD (lastTs evs) ≤ t
    simp [optMinTs]

theorem le_lastTs : ∀ {l : List Event}, l.Sorted tsle → ∀ {e : Event}, e ∈ l →
    e.timestamp ≤ lastTs l := by
  intro l
  induction l with
  | nil => intro _ e he; simp at he
  | cons a r ih =>
    intro hs e he
    cases r with
    | nil =>
      rw [List.mem_singleton] at he
      subst he
      unfold lastTs
      simp
    | cons b r' =>
      have hl : lastTs (a :: b :: r') = lastTs (b :: r') := by
        unfold lastTs
        rw [List.getLast?_cons_cons]
      rw [hl]
      rcases List.mem_cons.mp he with rfl | het
      · cases hgl : (b :: r').getLast? with
        | none => simp at hgl
        | some g =>
          have hgm : g ∈ b :: r' := List.mem_of_getLast?_eq_some hgl
          have hrel : tsle e g := List.rel_of_sorted_cons hs g hgm
          unfold lastTs
          rw [hgl]
          exact hrel
      · exact ih hs.of_cons het

theorem buildStep_start_le_end {uid : String} {evs stops : List Event}
    {ie : Event} {ni : Option Int} {idx : Nat}
    (hevs : evs.Sorted tsle) (hie : ie ∈ evs)
    (hni : ∀ t, ni = some t → ie.timestamp ≤ t) :
    (buildStep uid evs stops ie ni idx).1.start_ts ≤
      (buildStep uid evs stops ie ni idx).1.end_ts := by
  unfold buildStep
  dsimp only
  cases hn : stops[advanceIdx stops ie.timestamp idx]? with
  | none =>
    cases ni with
    | none =>
      show ie.timestamp ≤ (optMinTs none none).getD (lastTs evs)
      simp only [optMinTs, Option.getD]
      exact le_lastTs hevs hie
    | some t =>
      show ie.timestamp ≤ (optMinTs (some t) none).getD (lastTs evs)
      simp only [optMinTs, Option.getD]
      exact hni t rfl
  | some e =>
    have hgt : ie.timestamp < e.timestamp := advanceIdx_getElem?_gt _ _ _ hn
    cases ni with
    | none =>
      show ie.timestamp ≤ (optMinTs none (some e.timestamp)).getD (lastTs evs)
      simp only [optMinTs, Option.getD]
      exact le_of_lt hgt
    | some t =>
      show ie.timestamp ≤ (optMinTs (some t) (some e.timestamp)).getD (lastTs evs)
      simp only [optMinTs, Option.getD]
      exact le_min (hni t rfl) (le_of_lt hgt)

theorem buildStep_end_open {uid : String} {evs stops : List Event} {ie : Event}
    {idx : Nat} (h : ∀ st ∈ stops, st.timestamp ≤ ie.timestamp) :
    (buildStep uid evs stops ie none idx).1.end_ts = lastTs evs := by
  unfold buildStep
  dsimp only
  rw [advanceIdx_getElem?_none stops ie.timestamp idx h]
  rfl

/-- Unfolding equation for one iteration of the Builder loop. -/
theorem buildLoop_cons (uid : String) (evs stops : List Event) (ie : Event)
    (rest : List Event) (idx : Nat) :
    buildLoop uid evs stops (ie :: rest) idx =
      (buildStep uid evs stops ie ((rest.head?).map (·.timestamp)) idx).1 ::
        buildLoop uid evs stops rest
          (buildStep uid evs stops ie ((rest.head?).map (·.timestamp)) idx).2 := rfl

theorem getLast?_cons_of_ne {α : Type} {l : List α} (a : α) (h : l ≠ []) :
    (a :: l).getLast? = l.getLast? := by
  cases l with
  | nil => exact absurd rfl h
  | cons b t => exact List.getLast?_cons_cons

/-! ## Builder loop invariants -/

theorem buildLoop_start_mem (uid : String) (evs stops : List Event) :
    ∀ (inits : List Event) (idx : Nat) (s : DebugSession),
      s ∈ buildLoop uid evs stops inits idx →
      ∃ i ∈ inits, s.start_ts = i.timestamp := by
  intro inits
  induction inits with
  | nil => intro idx s hs; simp [buildLoop] at hs
  | cons ie rest ih =>
    intro idx s hs
    rw [buildLoop_cons] at hs
    rcases List.mem_cons.mp hs with rfl | hrest
    · exact ⟨ie, List.mem_cons_self ie rest, rfl⟩
    · obtain ⟨i, hi, hsi⟩ := ih _ s hrest
      exact ⟨i, List.mem_cons_of_mem ie hi, hsi⟩

theorem buildLoop_mem (uid : String) (evs stops : List Event)
    (hevs : evs.Sorted tsle) :
    ∀ (inits : List Event) (idx : Nat),
      inits.Sorted tsle → (∀ i ∈ inits, i ∈ evs) →
      ∀ s ∈ buildLoop uid evs stops inits idx,
        s.user_id = uid ∧ s.signal_count = 0 ∧ s.start_ts ≤ s.end_ts ∧
        ∀ e ∈ s.events, e ∈ evs ∧ s.start_ts ≤ e.timestamp ∧
          e.timestamp ≤ s.end_ts := by
  intro inits
  induction inits with
  | nil => intro idx _ _ s hs; simp [buildLoop] at hs
  | cons ie rest ih =>
    intro idx hsort hsub s hs
    rw [buildLoop_cons] at hs
    rcases List.mem_cons.mp hs with rfl | hrest
    · refine ⟨rfl, rfl, ?_, ?_⟩
      · refine buildStep_start_le_end hevs (hsub ie (List.mem_cons_self ie rest)) ?_
        intro t ht
        cases rest with
        | nil => simp at ht
        | cons r rest' =>
          have : r.timestamp = t := by simpa using ht
          rw [← this]
          exact List.rel_of_sorted_cons hsort r (List.mem_cons_self r rest')
      · intro e he
        exact buildStep_events_mem he
    · exact ih _ hsort.of_cons (fun i hi => hsub i (List.mem_cons_of_mem ie hi))
        s hrest

theorem buildLoop_pairwise (uid : String) (evs stops : List Event) :
    ∀ (inits : List Event) (idx : Nat), inits.Sorted tsle →
      (buildLoop uid evs stops inits idx).Pairwise
        (fun s₁ s₂ => s₁.end_ts ≤ s₂.start_ts) := by
  intro inits
  induction inits with
  | nil => intro idx _; exact List.Pairwise.nil
  | cons ie rest ih =>
    intro idx hsort
    rw [buildLoop_cons]
    refine List.Pairwise.cons ?_ (ih _ hsort.of_cons)
    intro s' hs'
    obtain ⟨i, hi, hsi⟩ := buildLoop_start_mem uid evs stops rest _ s' hs'
    cases rest with
    | nil => simp at hi
    | cons r rest' =>
      have h1 : (buildStep uid evs stops ie
          (((r :: rest').head?).map (·.timestamp)) idx).1.end_ts ≤ r.timestamp :=
        buildStep_end_le
      have h2 : r.timestamp ≤ i.timestamp := by
        rcases List.mem_cons.mp hi with rfl | hi'
        · exact le_refl _
        · exact List.rel_of_sorted_cons hsort.of_cons i hi'
      rw [hsi]
      exact le_trans h1 h2

theorem buildLoop_getLast (uid : String) (evs stops : List Event) :
    ∀ (inits : List Event) (idx : Nat) (ie : Event),
      inits.getLast? = some ie →
      ∃ idx2, (buildLoop uid evs stops inits idx).getLast? =
        some (buildStep uid evs stops ie none idx2).1 := by
  intro inits
  induction inits with
  | nil => intro idx ie h; simp at h
  | cons ie' rest ih =>
    intro idx ie h
    cases rest with
    | nil =>
      simp at h
      subst h
      exact ⟨idx, rfl⟩
    | cons r rest' =>
      rw [List.getLast?_cons_cons] at h
      rw [buildLoop_cons]
      rw [getLast?_cons_of_ne _ (by rw [buildLoop_cons]; exact List.cons_ne_nil _ _)]
      exact ih _ ie h

/-! ## Per-user and whole-batch properties of the Builder -/

theorem userEvs_sorted (events : List Event) (uid : String) :
    (userEvs events uid).Sorted tsle :=
  List.sorted_insertionSort tsle _

theorem userEvs_mem {events : List Event} {uid : String} {e : Event}
    (h : e ∈ userEvs events uid) : e ∈ events ∧ e.userId = uid := by
  have h' : e ∈ events.filter (fun e => e.userId == uid) :=
    (List.perm_insertionSort tsle _).mem_iff.mp h
  obtain ⟨hm, hp⟩ := List.mem_filter.mp h'
  exact ⟨hm, eq_of_beq hp⟩

theorem buildUser_mem (events : List Event) (uid : String) :
    ∀ s ∈ buildUser events uid,
      s.user_id = uid ∧ s.signal_count = 0 ∧ s.start_ts ≤ s.end_ts ∧
      ∀ e ∈ s.events, e ∈ events ∧ e.userId = uid ∧
        s.start_ts ≤ e.timestamp ∧ e.timestamp ≤ s.end_ts := by
  intro s hs
  obtain ⟨h1, h2, h3, h4⟩ := buildLoop_mem uid (userEvs events uid)
    (stopsOf events uid) (userEvs_sorted events uid) (initsOf events uid) 0
    ((userEvs_sorted events uid).filter isDaInit)
    (fun i hi => List.mem_of_mem_filter hi) s hs
  refine ⟨h1, h2, h3, ?_⟩
  intro e he
  obtain ⟨he1, he2, he3⟩ := h4 e he
  obtain ⟨hev, huid⟩ := userEvs_mem he1
  exact ⟨hev, huid, he2, he3⟩

theorem buildUser_pairwise (events : List Event) (uid : String) :
    (buildUser events uid).Pairwise (fun s₁ s₂ => s₁.end_ts ≤ s₂.start_ts) :=
  buildLoop_pairwise uid (userEvs events uid) (stopsOf events uid)
    (initsOf events uid) 0 ((userEvs_sorted events uid).filter isDaInit)

theorem uidsOf_nodup_aux : ∀ (l : List Event) (acc : List String), acc.Nodup →
    (l.foldl
      (fun acc e =>
        if e.userId == "" then acc
        else if e.userId ∈ acc then acc else acc ++ [e.userId]) acc).Nodup := by
  intro l
  induction l with
  | nil => intro acc h; exact h
  | cons e rest ih =>
    intro acc h
    rw [List.foldl_cons]
    apply ih
    by_cases h1 : (e.userId == "") = true
    · rw [if_pos h1]; exact h
    · rw [if_neg h1]
      by_cases h2 : e.userId ∈ acc
      · rw [if_pos h2]; exact h
      · rw [if_neg h2]
        rw [List.nodup_append]
        exact ⟨h, List.nodup_singleton _,
          fun a ha hb => h2 ((List.mem_singleton.mp hb) ▸ ha)⟩

theorem uidsOf_nodup (events : List Event) : (uidsOf events).Nodup :=
  uidsOf_nodup_aux events [] List.nodup_nil

theorem flatMap_overlap_pairwise (events : List Event) :
    ∀ (uids : List String), uids.Nodup →
      (uids.flatMap (buildUser events)).Pairwise (fun s₁ s₂ =>
        ∀ e ∈ s₁.events, e ∈ s₂.events →
          e.timestamp = s₁.end_ts ∧ e.timestamp = s₂.start_ts) := by
  intro uids
  induction uids with
  | nil => intro _; simp
  | cons u us ih =>
    intro hnd
    rw [List.flatMap_cons]
    rw [List.pairwise_append]
    refine ⟨?_, ih (List.nodup_cons.mp hnd).2, ?_⟩
    · refine List.Pairwise.imp_of_mem ?_ (buildUser_pairwise events u)
      intro s₁ s₂ h1 h2 hr e he1 he2
      have w1 := ((buildUser_mem events u s₁ h1).2.2.2 e he1).2.2.2
      have w2 := ((buildUser_mem events u s₂ h2).2.2.2 e he2).2.2.1
      exact ⟨le_antisymm w1 (le_trans hr w2), le_antisymm (le_trans w1 hr) w2⟩
    · intro s₁ h1 s₂ h2 e he1 he2
      have hu1 : e.userId = u := ((buildUser_mem events u s₁ h1).2.2.2 e he1).2.1
      obtain ⟨u', hu', hs2⟩ := List.mem_flatMap.mp h2
      have hu2 : e.userId = u' := ((buildUser_mem events u' s₂ hs2).2.2.2 e he2).2.1
      have huu : u = u' := hu1 ▸ hu2
      exact absurd (huu ▸ hu') (List.nodup_cons.mp hnd).1

/-- C1 (amended): any two distinct sessions produced by the Session Builder
can share an event only at their common boundary timestamp (the earlier
session's `end_ts`, which is then the later session's `start_ts`); and every
event attached to a session is one of the input events, belongs to that
session's user, and has its timestamp inside the session's
`[start_ts, end_ts]` window. -/
theorem builder_sessions_share_only_boundary_events (events : List Event) :
    ((buildDebugSessions events).Pairwise fun s₁ s₂ =>
      ∀ e ∈ s₁.events, e ∈ s₂.events →
        e.timestamp = s₁.end_ts ∧ e.timestamp = s₂.start_ts) ∧
    ∀ s ∈ buildDebugSessions events, ∀ e ∈ s.events,
      e ∈ events ∧ e.userId = s.user_id ∧
      s.start_ts ≤ e.timestamp ∧ e.timestamp ≤ s.end_ts := by
  constructor
  · exact flatMap_overlap_pairwise events (uidsOf events) (uidsOf_nodup events)
  · intro s hs e he
    obtain ⟨u, _, hsu⟩ := List.mem_flatMap.mp hs
    obtain ⟨huid, _, _, hw⟩ := buildUser_mem events u s hsu
    obtain ⟨he1, he2, he3, he4⟩ := hw e he
    exact ⟨he1, huid ▸ he2, he3, he4⟩

/-- C1 counterexample: for the batch with two init markers at 0 and 10 for the
same user, the boundary event `i10ev` is attached to BOTH sessions, so the
event subsets are not pairwise disjoint. -/
theorem builder_sessions_not_disjoint_cex :
    buildDebugSessions evC1 = [c1sA, c1sB] ∧
    i10ev ∈ c1sA.events ∧ i10ev ∈ c1sB.events := by decide

/-- Witness for C1 (amended): the window/ownership part at a concrete batch. -/
theorem builder_sessions_share_only_boundary_events_witness :
    i0ev ∈ evC1 ∧ i0ev.userId = c1sA.user_id ∧
    c1sA.start_ts ≤ i0ev.timestamp ∧ i0ev.timestamp ≤ c1sA.end_ts :=
  (builder_sessions_share_only_boundary_events evC1).2 c1sA (by decide)
    i0ev (by decide)

/-- C9: after the Builder and the Interpreter, every session's `signal_count`
is zero — no event in the vocabulary ever increments it. -/
theorem signal_count_always_zero :
    ∀ (events : List Event), ∀ s ∈ (buildDebugSessions events).map processSession,
      s.signal_count = 0 := by
  intro events s hs
  obtain ⟨s', hs', rfl⟩ := List.mem_map.mp hs
  obtain ⟨u, _, hsu⟩ := List.mem_flatMap.mp hs'
  have h0 : s'.signal_count = 0 := (buildUser_mem events u s' hsu).2.1
  have hkeep := (processSession_keepsFrame s').2.2.2.2.2.2
  rw [hkeep, h0]

/-- Witness for C9, on the Scenario A batch. -/
theorem signal_count_always_zero_witness :
    (processSession
      { user_id := "u"
        da_session_id := "42"
        start_ts := 0
        end_ts := 60
        events := scenarioAEvents }).signal_count = 0 :=
  signal_count_always_zero scenarioAEvents _ (by decide)

/-- C7: every built session satisfies `start_ts ≤ end_ts`; and when a user's
last session has no terminating marker — no later init (it is the last one)
and no stop marker anywhere past its start — its `end_ts` is the timestamp of
the last event observed for that user. -/
theorem session_bounds_ordered_and_open_end :
    (∀ (events : List Event), ∀ s ∈ buildDebugSessions events,
      s.start_ts ≤ s.end_ts) ∧
    (∀ (events : List Event) (uid : String) (s : DebugSession),
      (buildUser events uid).getLast? = some s →
      (∀ st ∈ stopsOf events uid, st.timestamp ≤ s.start_ts) →
      s.end_ts = lastTs (userEvs events uid)) := by
  constructor
  · intro events s hs
    obtain ⟨u, _, hsu⟩ := List.mem_flatMap.mp hs
    exact (buildUser_mem events u s hsu).2.2.1
  · intro events uid s hlast hstops
    unfold buildUser at hlast
    cases hie : (initsOf events uid).getLast? with
    | none =>
      rw [List.getLast?_eq_none_iff.mp hie] at hlast
      simp [buildLoop] at hlast
    | some ie =>
      obtain ⟨idx2, hrec⟩ := buildLoop_getLast uid (userEvs events uid)
        (stopsOf events uid) (initsOf events uid) 0 ie hie
      rw [hlast] at hrec
      have hseq : s = (buildStep uid (userEvs events uid) (stopsOf events uid)
          ie none idx2).1 := Option.some.inj hrec
      have hstart : s.start_ts = ie.timestamp := by rw [hseq]; rfl
      rw [hseq]
      apply buildStep_end_open
      intro st hst
      have h := hstops st hst
      rw [hstart] at h
      exact h

/-- Witness for C7, on a batch with one init marker and no stop markers. -/
theorem session_bounds_witness :
    c7sW.start_ts ≤ c7sW.end_ts ∧ c7sW.end_ts = lastTs (userEvs [in0ev] "u") :=
  ⟨session_bounds_ordered_and_open_end.1 [in0ev] c7sW (by decide),
   session_bounds_ordered_and_open_end.2 [in0ev] "u" c7sW (by decide) (by decide)⟩

/-- C5: when an unconsumed stop marker exists past the current init and its
timestamp is at most the next init's timestamp (in particular at a tie), the
comparison `next_stop_ts ≤ next_init_ts` makes it the session's end boundary
and consumes it — the returned scan position moves strictly past it; and the
scan position returned by every build step is at least the incoming one
(monotonically non-decreasing across successive init markers). -/
theorem stop_tie_preferred_and_consumed :
    (∀ (uid : String) (evs stops : List Event) (init_ev e : Event) (t : Int)
      (idx : Nat),
      stops[advanceIdx stops init_ev.timestamp idx]? = some e →
      e.timestamp ≤ t →
      (buildStep uid evs stops init_ev (some t) idx).2 =
        advanceIdx stops init_ev.timestamp idx + 1 ∧
      (buildStep uid evs stops init_ev (some t) idx).1.end_ts = e.timestamp) ∧
    (∀ (uid : String) (evs stops : List Event) (init_ev : Event)
      (ni : Option Int) (idx : Nat),
      idx ≤ (buildStep uid evs stops init_ev ni idx).2) := by
  constructor
  · intro uid evs stops ie e t idx hget hle
    unfold buildStep
    dsimp only
    rw [hget]
    constructor
    · show (if consumeStop (some e.timestamp) (some t) = true then
          advanceIdx stops ie.timestamp idx + 1
        else advanceIdx stops ie.timestamp idx) =
        advanceIdx stops ie.timestamp idx + 1
      simp [consumeStop, hle]
    · show (optMinTs (some t) (some e.timestamp)).getD (lastTs evs) = e.timestamp
      simp [optMinTs]
      exact hle
  · intro uid evs stops ie ni idx
    unfold buildStep
    dsimp only
    split
    · exact le_trans (advanceIdx_le stops ie.timestamp idx) (Nat.le_succ _)
    · exact advanceIdx_le stops ie.timestamp idx

/-- Witness for C5: a stop marker at timestamp 5 tied with the next init's
timestamp 5 is used as the end boundary and consumed. -/
theorem stop_tie_preferred_and_consumed_witness :
    ((buildStep "u" [] [st5ev] in0ev (some 5) 0).2 =
      advanceIdx [st5ev] in0ev.timestamp 0 + 1 ∧
    (buildStep "u" [] [st5ev] in0ev (some 5) 0).1.end_ts = st5ev.timestamp) ∧
    0 ≤ (buildStep "u" [] [st5ev] in0ev (some 5) 0).2 :=
  ⟨stop_tie_preferred_and_consumed.1 "u" [] [st5ev] in0ev st5ev 5 0
      (by decide) (by decide),
   stop_tie_preferred_and_consumed.2 "u" [] [st5ev] in0ev (some 5) 0⟩
